import Mathlib

/-!
# MathCanvas core — shallow embedding and verification

This file embeds the deterministic problem-generation core and the
pointer/input controller of the MathCanvas repository in Lean 4 and
proves the specification claims about them.

Embedding conventions:
* JavaScript 32-bit integer operations (`| 0`, `Math.imul`, `^`, `>>>`,
  `|`) are modelled on `Nat` via the unsigned 32-bit representative:
  the bit pattern of a JS int32 equals its value modulo 2^32, and all
  bitwise operators act on bit patterns, so working modulo 2^32 on `Nat`
  is faithful.
* The RNG is a mutable class in the source; it is embedded by explicit
  state passing: each method takes the current state and returns the
  drawn value paired with the new state.
* `Math.floor(next() * (max - min + 1))` is computed in float64 in JS.
  For every span `max - min + 1 ≤ 2^21` the product `u/2^32 * span`
  (with `u < 2^32` the integer numerator of `next()`) is exact in
  float64, so the floor equals the natural-number division
  `u * span / 2^32`; every call site in the generator has span
  at most 900000 < 2^21, so the `Nat` model below is exact.
-/

/-- `Operation` from `app/store/types.ts`: the three arithmetic operations. -/
inductive Operation where
  | addition
  | subtraction
  | multiplication
deriving DecidableEq, Repr

/-- `Difficulty` from `app/store/types.ts`. -/
inductive Difficulty where
  | Easy
  | Medium
  | Hard
deriving DecidableEq, Repr

/-- The `operations` field of `PracticeConfig`: which operations are enabled. -/
structure OperationsConfig where
  addition : Bool
  subtraction : Bool
  multiplication : Bool
deriving DecidableEq, Repr

/-- `PracticeConfig` from `app/store/types.ts`, restricted to the fields the
generation code reads (`operations`, `maxDigits`, `difficulty`).  The remaining
fields (`mode`, `sessionSize`, `guidedMode`, `checkMode`, `themeId`) never
occur in `rules.ts` or `problemGenerator.ts` and are omitted.  `maxDigits` is
typed `1 | 2 | 3 | 4 | 5 | 6` in TS; here it is `Nat` so that claims about
invalid values (C7) are statable. -/
structure PracticeConfig where
  operations : OperationsConfig
  maxDigits : Nat
  difficulty : Difficulty
deriving DecidableEq, Repr

/-- A configuration is valid when `maxDigits` is one of `1..6`
(the TS `MaxDigits` union type). -/
def validConfig (config : PracticeConfig) : Prop :=
  1 ≤ config.maxDigits ∧ config.maxDigits ≤ 6

instance : DecidablePred validConfig := fun _ => instDecidableAnd

namespace SeededRng

/-- The modulus of 32-bit wraparound. -/
def M32 : Nat := 4294967296

/-- `SeededRng.next` from `rng.ts` (Mulberry32).  The source mutates
`this.state` and returns a float `u / 2^32`; here the state is passed
explicitly and the integer numerator `u` is returned together with the
new state:

```
this.state = (this.state + 0x6d2b79f5) | 0;
let t = Math.imul(this.state ^ (this.state >>> 15), 1 | this.state);
t = (t + Math.imul(t ^ (t >>> 7), 61 | t)) ^ t;
return ((t ^ (t >>> 14)) >>> 0) / 4294967296;
```

`Math.imul` is multiplication modulo 2^32 on bit patterns, and the JS
addition `t + Math.imul(...)` is reduced modulo 2^32 by the subsequent
`^` (ToInt32). -/
def next (s : Nat) : Nat × Nat :=
  let s1 := (s + 0x6d2b79f5) % M32
  let t1 := ((s1 ^^^ (s1 >>> 15)) * (s1 ||| 1)) % M32
  let m2 := ((t1 ^^^ (t1 >>> 7)) * (t1 ||| 61)) % M32
  let t2 := ((t1 + m2) % M32) ^^^ t1
  (t2 ^^^ (t2 >>> 14), s1)

/-- `SeededRng.nextInt` from `rng.ts`:
`return min + Math.floor(this.next() * (max - min + 1));`.

The float computation is exact for every call site (span ≤ 2^21, see the
header comment), so the floor is the `Nat` division below.  The one call
with `max < min` in the source is `nextInt(1, 0)` (reachable only with
`maxDigits < 1`) and `nextInt(0, -1)` (pick on an empty list): there JS
computes span `0` and returns `min`, and the truncated `Nat` subtraction
gives span `1` with `u * 1 / 2^32 = 0`, returning `min` as well. -/
def nextInt (min max s : Nat) : Nat × Nat :=
  let (u, s1) := next s
  (min + u * (max - min + 1) / M32, s1)

/-- `SeededRng.pick` from `rng.ts`:
`return arr[this.nextInt(0, arr.length - 1)];`.

JS array indexing out of bounds returns `undefined` (it does not throw),
which is embedded as `Option` with `none` for `undefined`. -/
def pick (arr : List α) (s : Nat) : Option α × Nat :=
  let (i, s1) := nextInt 0 (arr.length - 1) s
  (arr.get? i, s1)

/-- `SeededRng.forProblem` from `rng.ts`:
```
const childSeed = seed * 2654435761 + index * 2246822519;
return new SeededRng(childSeed);
```
The constructor stores `seed | 0`, i.e. the childSeed truncated to 32
bits; the resulting state is returned.  (For seeds above ~2^21 the JS
product exceeds 2^53 and is rounded in float64 before truncation; the
claims proved below — determinism and invariants quantified over every
RNG state — do not depend on which 32-bit state results.) -/
def forProblem (seed index : Nat) : Nat :=
  (seed * 2654435761 + index * 2246822519) % M32

end SeededRng

/-- `digitRange` from `problemTypes.ts`:
```
if (digits === 1) return { min: 1, max: 9 };
return { min: Math.pow(10, digits - 1), max: Math.pow(10, digits) - 1 };
```
For `digits = 0` the source would compute the fractional bound
`Math.pow(10, -1) = 0.1`; that argument is unreachable from the
generator, because `chooseDigitCounts` produces digit counts via
`nextInt(1, _)`, which always returns at least 1. -/
def digitRange (digits : Nat) : Nat × Nat :=
  if digits = 1 then (1, 9)
  else (10 ^ (digits - 1), 10 ^ digits - 1)

/-- The digit-counting recursion behind `countDigits`: divides by 10
until zero, counting steps.  The recursion is made structural on a fuel
argument so that the kernel can evaluate it; `fuel ≥ n` always suffices
because `n` strictly decreases under division by 10
(`countDigitsGo_eq_log` relates it to `Nat.log`). -/
def countDigitsGo (fuel n : Nat) : Nat :=
  match fuel with
  | 0 => 0
  | fuel + 1 => if n = 0 then 0 else countDigitsGo fuel (n / 10) + 1

/-- `countDigits` from `problemTypes.ts`:
`if (n === 0) return 1; return Math.floor(Math.log10(Math.abs(n))) + 1;`
— the number of base-10 digits, with 0 having one digit.  All arguments
in the generator are non-negative integers below 10^12, where JS
`Math.floor(Math.log10(n)) + 1` equals the digit count computed here
(`countDigits_eq_log`). -/
def countDigits (n : Nat) : Nat :=
  if n = 0 then 1 else countDigitsGo n n

/-- `computeAnswer` from `problemTypes.ts`.  Subtraction may be negative
for arbitrary arguments, so the result is an `Int`. -/
def computeAnswer (a b : Nat) (op : Operation) : Int :=
  match op with
  | .addition => (a : Int) + b
  | .subtraction => (a : Int) - b
  | .multiplication => (a : Int) * b

/-- `getEnabledOperations` from `problemTypes.ts`: the list of enabled
operations, defaulting to `[addition]` when none is enabled. -/
def getEnabledOperations (operations : OperationsConfig) : List Operation :=
  let enabled : List Operation :=
    (if operations.addition then [Operation.addition] else []) ++
    (if operations.subtraction then [Operation.subtraction] else []) ++
    (if operations.multiplication then [Operation.multiplication] else [])
  if enabled.length = 0 then [Operation.addition] else enabled

/-- `getMultiplicationBDigitsCap` from `problemTypes.ts`. -/
def getMultiplicationBDigitsCap (difficulty : Difficulty) (maxDigits : Nat) : Nat :=
  match difficulty with
  | .Easy => 1
  | .Medium => Nat.min 2 maxDigits
  | .Hard => maxDigits

/-- The loop of `hasCarry` from `problemTypes.ts`:
```
let carry = 0;
while (a > 0 || b > 0) {
  const digitSum = (a % 10) + (b % 10) + carry;
  if (digitSum >= 10) return true;
  carry = digitSum >= 10 ? 1 : 0;
  a = Math.floor(a / 10); b = Math.floor(b / 10);
}
return false;
```
The `carry` variable is threaded exactly as in the source (it is
assigned `digitSum >= 10 ? 1 : 0` after the early return, hence is `0`
whenever the loop continues).  The recursion is structural on a fuel
argument so the kernel can evaluate it; `fuel = a + b` always suffices,
since `a + b` strictly decreases while the loop runs, and when the fuel
reaches 0 both `a` and `b` are 0, which is exactly the loop's exit
condition. -/
def hasCarryGo (fuel a b carry : Nat) : Bool :=
  match fuel with
  | 0 => false
  | fuel + 1 =>
    if a = 0 ∧ b = 0 then false
    else
      let digitSum := a % 10 + b % 10 + carry
      if 10 ≤ digitSum then true
      else hasCarryGo fuel (a / 10) (b / 10) (if 10 ≤ digitSum then 1 else 0)

/-- `hasCarry` from `problemTypes.ts`: the loop entered with `carry = 0`. -/
def hasCarry (a b : Nat) : Bool :=
  hasCarryGo (a + b) a b 0

/-- The loop of `hasBorrow` from `problemTypes.ts`:
```
let borrow = 0;
while (a > 0 || b > 0) {
  const aDigit = (a % 10) - borrow;
  const bDigit = b % 10;
  if (aDigit < bDigit) return true;
  borrow = aDigit < bDigit ? 1 : 0;
  a = Math.floor(a / 10); b = Math.floor(b / 10);
}
return false;
```
`aDigit` is computed in `Int` because the JS subtraction may reach `-1`.
Fuel as in `hasCarryGo`. -/
def hasBorrowGo (fuel a b borrow : Nat) : Bool :=
  match fuel with
  | 0 => false
  | fuel + 1 =>
    if a = 0 ∧ b = 0 then false
    else
      let aDigit : Int := (a % 10 : Nat) - borrow
      let bDigit : Int := (b % 10 : Nat)
      if aDigit < bDigit then true
      else hasBorrowGo fuel (a / 10) (b / 10) (if aDigit < bDigit then 1 else 0)

/-- `hasBorrow` from `problemTypes.ts`: the loop entered with `borrow = 0`. -/
def hasBorrow (a b : Nat) : Bool :=
  hasBorrowGo (a + b) a b 0

/-- `GeneratedOperands` from `rules.ts`. -/
structure GeneratedOperands where
  op : Operation
  a : Nat
  b : Nat
  aDigits : Nat
  bDigits : Nat
deriving DecidableEq, Repr

/-- `chooseDigitCounts` from `rules.ts`: digit counts for the operands,
by operation and difficulty.  RNG state is threaded explicitly. -/
def chooseDigitCounts (rng : Nat) (op : Operation) (config : PracticeConfig) :
    (Nat × Nat) × Nat :=
  if op = .multiplication then
    let bCap := getMultiplicationBDigitsCap config.difficulty config.maxDigits
    let (aDigits, s1) := SeededRng.nextInt 1 config.maxDigits rng
    let (bDigits, s2) := SeededRng.nextInt 1 bCap s1
    ((aDigits, bDigits), s2)
  else if config.difficulty = .Easy then
    let (digits, s1) := SeededRng.nextInt 1 config.maxDigits rng
    ((digits, digits), s1)
  else
    let (aDigits, s1) := SeededRng.nextInt 1 config.maxDigits rng
    let (bDigits, s2) := SeededRng.nextInt 1 config.maxDigits s1
    ((aDigits, bDigits), s2)

/-- The multiplication attempt loop of `generateOperands` (`rules.ts`):
up to `attempts` draws of `(a, b)`; the first pair whose product has at
most 7 digits is returned (`some`), otherwise `none` with the advanced
RNG state. -/
def mulAttempts (aRange bRange : Nat × Nat) (attempts : Nat) (s : Nat) :
    Option (Nat × Nat) × Nat :=
  match attempts with
  | 0 => (none, s)
  | n + 1 =>
    let (a, s1) := SeededRng.nextInt aRange.1 aRange.2 s
    let (b, s2) := SeededRng.nextInt bRange.1 bRange.2 s1
    if countDigits (a * b) ≤ 7 then (some (a, b), s2)
    else mulAttempts aRange bRange n s2

/-- The multiplication fallback loop of `generateOperands` (`rules.ts`):
`while (countDigits(a * b) > 7 && b > 1) { b = Math.floor(b / 2); }`.
Structural on a fuel argument; `fuel = b` always suffices since `b`
strictly decreases while the loop runs, and fuel 0 forces `b = 0`, where
the loop would not run anyway. -/
def halveLoopGo (fuel a b : Nat) : Nat :=
  match fuel with
  | 0 => b
  | fuel + 1 =>
    if countDigits (a * b) > 7 ∧ b > 1 then halveLoopGo fuel a (b / 2) else b

/-- The halving loop entered with fuel `b`. -/
def halveLoop (a b : Nat) : Nat :=
  halveLoopGo b a b

/-- The Easy-mode attempt loop of `generateOperands` (`rules.ts`): up to
`attempts` draws of `(a, b)`, swapped for subtraction when `b > a`; the
first carry-free (addition) or borrow-free (subtraction) pair is
returned (`some`), otherwise `none` with the advanced RNG state — the
source then falls through to the default generation block. -/
def easyAttempts (op : Operation) (aRange bRange : Nat × Nat) (attempts : Nat)
    (s : Nat) : Option (Nat × Nat) × Nat :=
  match attempts with
  | 0 => (none, s)
  | n + 1 =>
    let (a0, s1) := SeededRng.nextInt aRange.1 aRange.2 s
    let (b0, s2) := SeededRng.nextInt bRange.1 bRange.2 s1
    let (a, b) := if op = .subtraction ∧ b0 > a0 then (b0, a0) else (a0, b0)
    if op = .addition ∧ hasCarry a b = false then (some (a, b), s2)
    else if op = .subtraction ∧ hasBorrow a b = false then (some (a, b), s2)
    else easyAttempts op aRange bRange n s2

/-- The default generation block of `generateOperands` (`rules.ts`,
"Default generation (Medium, Hard, or fallback)"): one draw per operand,
with the subtraction swap `if (op === 'subtraction' && b > a) [a, b] = [b, a]`.
It is inline in the source; it is named here so the Easy-exhaustion and
non-Easy paths can share it. -/
def defaultDraw (op : Operation) (aRange bRange : Nat × Nat) (s : Nat) :
    (Nat × Nat) × Nat :=
  let (a0, s1) := SeededRng.nextInt aRange.1 aRange.2 s
  let (b0, s2) := SeededRng.nextInt bRange.1 bRange.2 s1
  if op = .subtraction ∧ b0 > a0 then ((b0, a0), s2) else ((a0, b0), s2)

/-- `generateOperands` from `rules.ts`.  The three paths of the source —
multiplication with retry and halving fallback, Easy addition/subtraction
with retry, and the default single draw with subtraction swap — are
mirrored directly; the early `return`s inside the source loops become the
`some` results of `mulAttempts` / `easyAttempts`. -/
def generateOperands (rng : Nat) (op : Operation) (config : PracticeConfig)
    (maxAttempts : Nat := 20) : GeneratedOperands × Nat :=
  let ((aDigits, bDigits), s1) := chooseDigitCounts rng op config
  let aRange := digitRange aDigits
  let bRange := digitRange bDigits
  if op = .multiplication then
    match mulAttempts aRange bRange maxAttempts s1 with
    | (some (a, b), s2) =>
      ({ op := op, a := a, b := b, aDigits := aDigits, bDigits := bDigits }, s2)
    | (none, s2) =>
      let (a, s3) := SeededRng.nextInt aRange.1 aRange.2 s2
      let (b0, s4) := SeededRng.nextInt bRange.1 bRange.2 s3
      let b := halveLoop a b0
      ({ op := op, a := a, b := b, aDigits := aDigits, bDigits := bDigits }, s4)
  else
    let easyResult : Option (Nat × Nat) × Nat :=
      if config.difficulty = .Easy ∧ (op = .addition ∨ op = .subtraction) then
        easyAttempts op aRange bRange maxAttempts s1
      else (none, s1)
    match easyResult with
    | (some (a, b), s2) =>
      ({ op := op, a := a, b := b, aDigits := aDigits, bDigits := bDigits }, s2)
    | (none, s2) =>
      let ((a, b), s4) := defaultDraw op aRange bRange s2
      ({ op := op, a := a, b := b, aDigits := aDigits, bDigits := bDigits }, s4)

/-- `selectOperation` from `rules.ts`:
`return rng.pick(getEnabledOperations(config.operations));`.
`getEnabledOperations` never returns an empty list and the pick index is
always in bounds (`selectOperation_pick_some` below), so the `none`
branch is unreachable; it defaults to `addition` to keep the embedding
total. -/
def selectOperation (rng : Nat) (config : PracticeConfig) : Operation × Nat :=
  let enabled := getEnabledOperations config.operations
  match SeededRng.pick enabled rng with
  | (some op, s1) => (op, s1)
  | (none, s1) => (Operation.addition, s1)

/-- `Problem` from `app/store/types.ts`. -/
structure Problem where
  id : String
  seed : Nat
  index : Nat
  op : Operation
  a : Nat
  b : Nat
  aDigits : Nat
  bDigits : Nat
  createdAt : Nat
deriving DecidableEq, Repr

/-- `generateProblem` from `problemGenerator.ts`.  The single impure
input, `Date.now()`, is made an explicit parameter `now`; everything
else is computed from `(seed, index, config)` exactly as in the source. -/
def generateProblem (seed index : Nat) (config : PracticeConfig) (now : Nat) :
    Problem :=
  let rng := SeededRng.forProblem seed index
  let opSel := selectOperation rng config
  let op := opSel.1
  let operands := (generateOperands opSel.2 op config).1
  { id := "p-" ++ toString seed ++ "-" ++ toString index
    seed := seed
    index := index
    op := operands.op
    a := operands.a
    b := operands.b
    aDigits := operands.aDigits
    bDigits := operands.bDigits
    createdAt := now }

/-- Reference recursion following the specification's words for
`hasCarry` ("true if adding a and b digit-by-digit (from the ones place)
ever produces a digit-sum ≥ 10, accounting for carry propagation"): at
each position the digit-sum includes the incoming carry, the outgoing
carry is propagated to the next position, and the result is true when
some position's digit-sum reaches 10.  Fuel as in `hasCarryGo`.  Used
only to compare `hasCarry` against the specification (claim C8). -/
def hasCarrySpecGo (fuel a b carry : Nat) : Bool :=
  match fuel with
  | 0 => false
  | fuel + 1 =>
    if a = 0 ∧ b = 0 then false
    else
      let digitSum := a % 10 + b % 10 + carry
      decide (10 ≤ digitSum) ||
        hasCarrySpecGo fuel (a / 10) (b / 10) (if 10 ≤ digitSum then 1 else 0)

/-- The carry-propagating reference for `hasCarry`, entered with carry 0. -/
def hasCarrySpec (a b : Nat) : Bool :=
  hasCarrySpecGo (a + b) a b 0

/-- `e.pointerType` of a DOM `PointerEvent`. -/
inductive PointerType where
  | pen
  | touch
  | mouse
deriving DecidableEq, Repr

/-- The `'pen' | 'eraser'` tool mode from `strokeModel.ts`. -/
inductive ToolMode where
  | pen
  | eraser
deriving DecidableEq, Repr

/-- `StrokePoint` from `strokeModel.ts`: canvas-space coordinates, the
`Date.now()` timestamp and optional pressure.  In this model each event
carries the `StrokePoint` that `getCanvasPoint` would derive from it
(the controller's branching never inspects the point's contents). -/
structure StrokePoint where
  x : Int
  y : Int
  t : Nat
  pressure : Option Nat
deriving DecidableEq, Repr

/-- `Stroke` from `strokeModel.ts`.  The source id is the string
`stroke-${Date.now()}-${++strokeCounter}`; the model keeps the strictly
increasing counter component, which is what distinguishes strokes of one
controller. -/
structure Stroke where
  id : Nat
  color : String
  size : Nat
  mode : ToolMode
  points : List StrokePoint
deriving DecidableEq, Repr

/-- `createStroke` from `strokeModel.ts`: a fresh stroke with an empty
point list; the module-global `strokeCounter` is pre-incremented and
becomes part of the id.  Returns the stroke with the updated counter. -/
def createStroke (color : String) (size : Nat) (mode : ToolMode) (counter : Nat) :
    Stroke × Nat :=
  ({ id := counter + 1, color := color, size := size, mode := mode, points := [] },
   counter + 1)

/-- `addPoint` from `strokeModel.ts` (`stroke.points.push(point)`),
modelled functionally. -/
def addPoint (stroke : Stroke) (point : StrokePoint) : Stroke :=
  { stroke with points := stroke.points ++ [point] }

/-- The kind of pointer event delivered to the controller.
`pointercancel` and `pointerleave` are registered on the same handler as
`pointerup` in `bindEvents`, so all three are `up` here. -/
inductive EventKind where
  | down
  | move
  | up
deriving DecidableEq, Repr

/-- A pointer event as seen by the handlers of `pointerController.ts`:
its kind, `pointerType`, `pointerId`, and the canvas-space point that
`getCanvasPoint` derives from it. -/
structure PEvent where
  kind : EventKind
  pointerType : PointerType
  pointerId : Nat
  point : StrokePoint
deriving DecidableEq, Repr

/-- The mutable fields of `PointerController` (`activeStroke`,
`lastPointIndex`, `isPenActive`, `activePointerId`), together with the
module-global `strokeCounter` of `strokeModel.ts`, the current tool
settings behind the `getColor`/`getSize`/`getMode` accessors, and the
list of strokes handed to the `onStrokeComplete` callback so far, in
call order.  The rendering calls (`drawStrokeStart`,
`drawStrokeSegment`) and `setPointerCapture` do not touch this state and
are not modelled. -/
structure ControllerState where
  activeStroke : Option Stroke
  lastPointIndex : Nat
  isPenActive : Bool
  activePointerId : Option Nat
  strokeCounter : Nat
  toolColor : String
  toolSize : Nat
  toolMode : ToolMode
  completed : List Stroke
deriving DecidableEq, Repr

/-- `onPointerDown` from `pointerController.ts`:
palm rejection first, then the different-pointer guard, then pen
activation, pointer capture, stroke creation with the current tool
settings, and the first point. -/
def onPointerDown (st : ControllerState) (e : PEvent) : ControllerState :=
  if st.isPenActive ∧ e.pointerType = .touch then st
  else if st.activeStroke ≠ none ∧ st.activePointerId ≠ some e.pointerId then st
  else
    let st1 := if e.pointerType = .pen then { st with isPenActive := true } else st
    let (stroke, counter) := createStroke st.toolColor st.toolSize st.toolMode st.strokeCounter
    { st1 with
      activePointerId := some e.pointerId
      activeStroke := some (addPoint stroke e.point)
      lastPointIndex := 0
      strokeCounter := counter }

/-- `onPointerMove` from `pointerController.ts`: ignored without an
active stroke or on a pointer-id mismatch or under palm rejection;
otherwise appends the point and records the new last index. -/
def onPointerMove (st : ControllerState) (e : PEvent) : ControllerState :=
  match st.activeStroke with
  | none => st
  | some stroke =>
    if st.activePointerId ≠ some e.pointerId then st
    else if st.isPenActive ∧ e.pointerType = .touch then st
    else
      let stroke1 := addPoint stroke e.point
      { st with
        activeStroke := some stroke1
        lastPointIndex := stroke1.points.length - 1 }

/-- `onPointerUp` from `pointerController.ts` (also bound to
`pointercancel` and `pointerleave`): ignored without an active stroke or
on a pointer-id mismatch; otherwise clears pen-active for a pen pointer,
hands the stroke to `onStrokeComplete`, and resets the stroke state. -/
def onPointerUp (st : ControllerState) (e : PEvent) : ControllerState :=
  match st.activeStroke with
  | none => st
  | some stroke =>
    if st.activePointerId ≠ some e.pointerId then st
    else
      let st1 := if e.pointerType = .pen then { st with isPenActive := false } else st
      { st1 with
        completed := st1.completed ++ [stroke]
        activeStroke := none
        activePointerId := none
        lastPointIndex := 0 }

/-- Dispatch one event to the handler registered for its kind. -/
def step (st : ControllerState) (e : PEvent) : ControllerState :=
  match e.kind with
  | .down => onPointerDown st e
  | .move => onPointerMove st e
  | .up => onPointerUp st e

/-- Deliver a sequence of pointer events in order. -/
def run (st : ControllerState) : List PEvent → ControllerState
  | [] => st
  | e :: es => run (step st e) es

theorem SeededRng.M32_eq : SeededRng.M32 = 2 ^ 32 := by norm_num [SeededRng.M32]

theorem SeededRng.M32_pos : 0 < SeededRng.M32 := by norm_num [SeededRng.M32]

/-- XOR-ing a 32-bit value with any right shift of itself stays below 2^32. -/
theorem xor_shiftRight_lt {x : Nat} (k : Nat) (hx : x < 2 ^ 32) :
    x ^^^ (x >>> k) < 2 ^ 32 := by
  refine Nat.xor_lt_two_pow hx (lt_of_le_of_lt ?_ hx)
  rw [Nat.shiftRight_eq_div_pow]
  exact Nat.div_le_self _ _

/-- The numerator returned by `next` is below 2^32 (the float it stands
for is in `[0, 1)`). -/
theorem SeededRng.next_fst_lt (s : Nat) : (SeededRng.next s).1 < SeededRng.M32 := by
  rw [SeededRng.M32_eq]
  dsimp only [SeededRng.next]
  apply xor_shiftRight_lt
  apply Nat.xor_lt_two_pow
  · rw [← SeededRng.M32_eq]; exact Nat.mod_lt _ SeededRng.M32_pos
  · rw [← SeededRng.M32_eq]; exact Nat.mod_lt _ SeededRng.M32_pos

/-- `nextInt min max` never returns below `min`. -/
theorem SeededRng.nextInt_fst_ge (mn mx s : Nat) :
    mn ≤ (SeededRng.nextInt mn mx s).1 := by
  dsimp only [SeededRng.nextInt]
  exact Nat.le_add_right _ _

/-- `nextInt min max` never returns above `max` when `min ≤ max`. -/
theorem SeededRng.nextInt_fst_le {mn mx : Nat} (h : mn ≤ mx) (s : Nat) :
    (SeededRng.nextInt mn mx s).1 ≤ mx := by
  dsimp only [SeededRng.nextInt]
  have hu := SeededRng.next_fst_lt s
  have hspan : 0 < mx - mn + 1 := by omega
  have hdiv : (SeededRng.next s).1 * (mx - mn + 1) / SeededRng.M32 < mx - mn + 1 := by
    rw [Nat.div_lt_iff_lt_mul SeededRng.M32_pos]
    calc (SeededRng.next s).1 * (mx - mn + 1)
        < SeededRng.M32 * (mx - mn + 1) := by
          exact Nat.mul_lt_mul_of_lt_of_le hu (le_refl _) hspan
      _ = (mx - mn + 1) * SeededRng.M32 := Nat.mul_comm _ _
  omega

/-- The lower bound of `digitRange d` is positive. -/
theorem digitRange_fst_pos (d : Nat) : 0 < (digitRange d).1 := by
  unfold digitRange
  split
  · norm_num
  · exact Nat.pos_pow_of_pos _ (by norm_num)

/-- The bounds of `digitRange d` are ordered for `d ≥ 1`. -/
theorem digitRange_fst_le_snd {d : Nat} (hd : 1 ≤ d) :
    (digitRange d).1 ≤ (digitRange d).2 := by
  by_cases hone : d = 1
  · simp [digitRange, hone]
  · simp only [digitRange, if_neg hone]
    have hpd : 10 ^ d = 10 ^ (d - 1) * 10 := by
      rw [← pow_succ]
      congr 1
      omega
    have hplow : 1 ≤ 10 ^ (d - 1) := Nat.one_le_pow _ _ (by norm_num)
    omega

/-- With sufficient fuel, the digit-counting loop computes
`Nat.log 10 n + 1` for positive `n`. -/
theorem countDigitsGo_eq_log : ∀ fuel n, n ≠ 0 → n ≤ fuel →
    countDigitsGo fuel n = Nat.log 10 n + 1 := by
  intro fuel
  induction fuel with
  | zero => intro n h0 hle; omega
  | succ fuel ih =>
    intro n h0 hle
    rw [countDigitsGo, if_neg h0]
    by_cases h10 : n < 10
    · have hdiv : n / 10 = 0 := Nat.div_eq_of_lt h10
      rw [hdiv]
      have hz : countDigitsGo fuel 0 = 0 := by cases fuel <;> rfl
      rw [hz]
      have hlog : Nat.log 10 n = 0 := by
        rw [Nat.log_eq_zero_iff]
        omega
      omega
    · have hge : 10 ≤ n := by omega
      have hne : n / 10 ≠ 0 := by
        have := Nat.div_pos hge (by norm_num : 0 < 10)
        omega
      have hlef : n / 10 ≤ fuel := by
        have := Nat.div_lt_self (by omega : 0 < n) (by norm_num : 1 < 10)
        omega
      rw [ih (n / 10) hne hlef]
      have hpos := Nat.log_pos (by norm_num : 1 < 10) hge
      have hdb := Nat.log_div_base 10 n
      omega

/-- `countDigits` agrees with the closed-form `Math.floor(log10 n) + 1`. -/
theorem countDigits_eq_log (n : Nat) :
    countDigits n = if n = 0 then 1 else Nat.log 10 n + 1 := by
  unfold countDigits
  by_cases h : n = 0
  · rw [if_pos h, if_pos h]
  · rw [if_neg h, if_neg h, countDigitsGo_eq_log n n h (le_refl n)]

/-- Every number inside `digitRange d` has exactly `d` decimal digits. -/
theorem countDigits_of_digitRange {d x : Nat} (hd : 1 ≤ d)
    (h1 : (digitRange d).1 ≤ x) (h2 : x ≤ (digitRange d).2) :
    countDigits x = d := by
  by_cases hone : d = 1
  · subst hone
    have h1' : 1 ≤ x := h1
    have h2' : x ≤ 9 := h2
    rw [countDigits_eq_log, if_neg (by omega)]
    have hlog : Nat.log 10 x = 0 := by
      apply Nat.log_eq_of_pow_le_of_lt_pow
      · simpa using h1'
      · norm_num
        omega
    omega
  · have hd2 : 2 ≤ d := by omega
    simp only [digitRange, if_neg hone] at h1 h2
    have hpd : 10 ^ d = 10 ^ (d - 1) * 10 := by
      rw [← pow_succ]
      congr 1
      omega
    have hplow : 1 ≤ 10 ^ (d - 1) := Nat.one_le_pow _ _ (by norm_num)
    rw [countDigits_eq_log, if_neg (by omega)]
    have hlog : Nat.log 10 x = d - 1 := by
      apply Nat.log_eq_of_pow_le_of_lt_pow h1
      have heq : d - 1 + 1 = d := by omega
      rw [heq]
      omega
    omega

/-- `countDigits` is monotone. -/
theorem countDigits_mono {x y : Nat} (h : x ≤ y) : countDigits x ≤ countDigits y := by
  rw [countDigits_eq_log, countDigits_eq_log]
  by_cases hx : x = 0
  · rw [if_pos hx]
    split <;> omega
  · rw [if_neg hx, if_neg (by omega)]
    exact Nat.succ_le_succ (Nat.log_mono_right h)

/-- Everything below `10 ^ k` has at most `k` digits (for `k ≥ 1`). -/
theorem countDigits_le_of_lt_pow {x k : Nat} (hk : 1 ≤ k) (h : x < 10 ^ k) :
    countDigits x ≤ k := by
  rw [countDigits_eq_log]
  split
  · omega
  · have := Nat.log_lt_of_lt_pow (by omega : x ≠ 0) h
    omega

/-- `halveLoopGo` never increases `b`, for any fuel. -/
theorem halveLoopGo_le (fuel a : Nat) : ∀ b, halveLoopGo fuel a b ≤ b := by
  induction fuel with
  | zero => intro b; exact le_refl b
  | succ fuel ih =>
    intro b
    rw [halveLoopGo]
    split
    · exact le_trans (ih (b / 2)) (Nat.div_le_self _ _)
    · exact le_refl b

/-- `halveLoop` never increases `b`. -/
theorem halveLoop_le (a b : Nat) : halveLoop a b ≤ b :=
  halveLoopGo_le b a b

/-- `halveLoopGo` keeps `b` positive, for any fuel. -/
theorem halveLoopGo_pos (fuel a : Nat) : ∀ b, 1 ≤ b → 1 ≤ halveLoopGo fuel a b := by
  induction fuel with
  | zero => intro b hb; exact hb
  | succ fuel ih =>
    intro b hb
    rw [halveLoopGo]
    split
    · rename_i h
      exact ih (b / 2) (by omega)
    · exact hb

/-- `halveLoop` keeps `b` positive. -/
theorem halveLoop_pos (a b : Nat) : 1 ≤ b → 1 ≤ halveLoop a b :=
  halveLoopGo_pos b a b

/-- With sufficient fuel the halving loop brings the product within 7
digits, provided the fixed operand has at most 6 digits. -/
theorem halveLoopGo_digits (a : Nat) (ha : countDigits a ≤ 6) :
    ∀ fuel b, b ≤ fuel → 1 ≤ b → countDigits (a * halveLoopGo fuel a b) ≤ 7 := by
  intro fuel
  induction fuel with
  | zero => intro b hbf hb; omega
  | succ fuel ih =>
    intro b hbf hb
    rw [halveLoopGo]
    split
    · rename_i h
      refine ih (b / 2) ?_ (by omega)
      have := Nat.div_lt_self (by omega : 0 < b) (by norm_num : 1 < 2)
      omega
    · rename_i h
      by_cases hcd : countDigits (a * b) ≤ 7
      · exact hcd
      · have hb1 : b = 1 := by omega
        subst hb1
        rw [Nat.mul_one]
        omega

/-- After the halving fallback the product has at most 7 digits, provided
the fixed operand has at most 6 digits. -/
theorem halveLoop_digits (a b : Nat) (ha : countDigits a ≤ 6) : 1 ≤ b →
    countDigits (a * halveLoop a b) ≤ 7 :=
  fun hb => halveLoopGo_digits a ha b b (le_refl b) hb

/-- A successful pass of the multiplication attempt loop yields operands
inside their digit ranges with a product of at most 7 digits. -/
theorem mulAttempts_some {aR bR : Nat × Nat} (haR : aR.1 ≤ aR.2) (hbR : bR.1 ≤ bR.2) :
    ∀ {n s a b s' : Nat}, mulAttempts aR bR n s = (some (a, b), s') →
      aR.1 ≤ a ∧ a ≤ aR.2 ∧ bR.1 ≤ b ∧ b ≤ bR.2 ∧ countDigits (a * b) ≤ 7 := by
  intro n
  induction n with
  | zero => intro s a b s' h; simp [mulAttempts] at h
  | succ n ih =>
    intro s a b s' h
    rw [mulAttempts] at h
    rcases h1 : SeededRng.nextInt aR.1 aR.2 s with ⟨a1, s1⟩
    rw [h1] at h
    dsimp only at h
    rcases h2 : SeededRng.nextInt bR.1 bR.2 s1 with ⟨b1, s2⟩
    rw [h2] at h
    dsimp only at h
    split at h
    · rename_i hcd
      simp only [Prod.mk.injEq, Option.some.injEq] at h
      obtain ⟨⟨rfl, rfl⟩, rfl⟩ := h
      have ha1 := SeededRng.nextInt_fst_ge aR.1 aR.2 s
      have ha2 := SeededRng.nextInt_fst_le haR s
      have hb1 := SeededRng.nextInt_fst_ge bR.1 bR.2 s1
      have hb2 := SeededRng.nextInt_fst_le hbR s1
      rw [h1] at ha1 ha2
      rw [h2] at hb1 hb2
      exact ⟨ha1, ha2, hb1, hb2, hcd⟩
    · exact ih h

/-- A successful pass of the Easy attempt loop yields operands each lying
in one of the two digit ranges (the subtraction swap may exchange them),
with `b ≤ a` for subtraction. -/
theorem easyAttempts_some {op : Operation} {aR bR : Nat × Nat}
    (haR : aR.1 ≤ aR.2) (hbR : bR.1 ≤ bR.2) :
    ∀ {n s a b s' : Nat}, easyAttempts op aR bR n s = (some (a, b), s') →
      ((aR.1 ≤ a ∧ a ≤ aR.2) ∨ (bR.1 ≤ a ∧ a ≤ bR.2)) ∧
      ((aR.1 ≤ b ∧ b ≤ aR.2) ∨ (bR.1 ≤ b ∧ b ≤ bR.2)) ∧
      (op = .subtraction → b ≤ a) := by
  intro n
  induction n with
  | zero => intro s a b s' h; simp [easyAttempts] at h
  | succ n ih =>
    intro s a b s' h
    rw [easyAttempts] at h
    rcases h1 : SeededRng.nextInt aR.1 aR.2 s with ⟨a0, s1⟩
    rw [h1] at h
    dsimp only at h
    rcases h2 : SeededRng.nextInt bR.1 bR.2 s1 with ⟨b0, s2⟩
    rw [h2] at h
    dsimp only at h
    have ha0ge := SeededRng.nextInt_fst_ge aR.1 aR.2 s
    have ha0le := SeededRng.nextInt_fst_le haR s
    have hb0ge := SeededRng.nextInt_fst_ge bR.1 bR.2 s1
    have hb0le := SeededRng.nextInt_fst_le hbR s1
    rw [h1] at ha0ge ha0le
    rw [h2] at hb0ge hb0le
    dsimp only at ha0ge ha0le hb0ge hb0le
    split at h
    · -- swap taken: pair is (b0, a0) and a0 < b0
      rename_i hswap
      dsimp only at h
      split at h
      · simp only [Prod.mk.injEq, Option.some.injEq] at h
        obtain ⟨⟨rfl, rfl⟩, rfl⟩ := h
        exact ⟨Or.inr ⟨hb0ge, hb0le⟩, Or.inl ⟨ha0ge, ha0le⟩, fun _ => by omega⟩
      · split at h
        · simp only [Prod.mk.injEq, Option.some.injEq] at h
          obtain ⟨⟨rfl, rfl⟩, rfl⟩ := h
          exact ⟨Or.inr ⟨hb0ge, hb0le⟩, Or.inl ⟨ha0ge, ha0le⟩, fun _ => by omega⟩
        · exact ih h
    · -- no swap: pair is (a0, b0)
      rename_i hnoswap
      dsimp only at h
      split at h
      · simp only [Prod.mk.injEq, Option.some.injEq] at h
        obtain ⟨⟨rfl, rfl⟩, rfl⟩ := h
        refine ⟨Or.inl ⟨ha0ge, ha0le⟩, Or.inr ⟨hb0ge, hb0le⟩, fun hop => ?_⟩
        by_contra hgt
        exact hnoswap ⟨hop, by omega⟩
      · split at h
        · simp only [Prod.mk.injEq, Option.some.injEq] at h
          obtain ⟨⟨rfl, rfl⟩, rfl⟩ := h
          refine ⟨Or.inl ⟨ha0ge, ha0le⟩, Or.inr ⟨hb0ge, hb0le⟩, fun hop => ?_⟩
          by_contra hgt
          exact hnoswap ⟨hop, by omega⟩
        · exact ih h

/-- The multiplication digits cap is between 1 and `maxDigits` for every
valid bound. -/
theorem multCap_bounds (difficulty : Difficulty) {m : Nat} (h1 : 1 ≤ m) :
    1 ≤ getMultiplicationBDigitsCap difficulty m ∧
    getMultiplicationBDigitsCap difficulty m ≤ m := by
  cases difficulty <;> simp only [getMultiplicationBDigitsCap, Nat.min_def] <;>
    (try split) <;> omega

/-- The digit counts chosen by `chooseDigitCounts` lie in `[1, maxDigits]`
under a valid configuration. -/
theorem chooseDigitCounts_bounds (rng : Nat) (op : Operation) (config : PracticeConfig)
    (hv : validConfig config) :
    1 ≤ (chooseDigitCounts rng op config).1.1 ∧
    (chooseDigitCounts rng op config).1.1 ≤ config.maxDigits ∧
    1 ≤ (chooseDigitCounts rng op config).1.2 ∧
    (chooseDigitCounts rng op config).1.2 ≤ config.maxDigits := by
  obtain ⟨h1, _⟩ := hv
  unfold chooseDigitCounts
  split
  · obtain ⟨hcap1, hcapM⟩ := multCap_bounds config.difficulty h1
    have g1 := SeededRng.nextInt_fst_ge 1 config.maxDigits rng
    have g2 := SeededRng.nextInt_fst_le h1 rng
    rcases hA : SeededRng.nextInt 1 config.maxDigits rng with ⟨aD, sA⟩
    rw [hA] at g1 g2
    dsimp only at g1 g2 ⊢
    have g3 := SeededRng.nextInt_fst_ge 1
      (getMultiplicationBDigitsCap config.difficulty config.maxDigits) sA
    have g4 := SeededRng.nextInt_fst_le hcap1 sA
    rcases hB : SeededRng.nextInt 1
        (getMultiplicationBDigitsCap config.difficulty config.maxDigits) sA with ⟨bD, sB⟩
    rw [hB] at g3 g4
    dsimp only at g3 g4 ⊢
    exact ⟨g1, g2, g3, by omega⟩
  · split
    · have g1 := SeededRng.nextInt_fst_ge 1 config.maxDigits rng
      have g2 := SeededRng.nextInt_fst_le h1 rng
      rcases hA : SeededRng.nextInt 1 config.maxDigits rng with ⟨d, sA⟩
      rw [hA] at g1 g2
      dsimp only at g1 g2 ⊢
      exact ⟨g1, g2, g1, g2⟩
    · have g1 := SeededRng.nextInt_fst_ge 1 config.maxDigits rng
      have g2 := SeededRng.nextInt_fst_le h1 rng
      rcases hA : SeededRng.nextInt 1 config.maxDigits rng with ⟨aD, sA⟩
      rw [hA] at g1 g2
      dsimp only at g1 g2 ⊢
      have g3 := SeededRng.nextInt_fst_ge 1 config.maxDigits sA
      have g4 := SeededRng.nextInt_fst_le h1 sA
      rcases hB : SeededRng.nextInt 1 config.maxDigits sA with ⟨bD, sB⟩
      rw [hB] at g3 g4
      dsimp only at g3 g4 ⊢
      exact ⟨g1, g2, g3, g4⟩

/-- A number drawn from `digitRange d` with `1 ≤ d ≤ m` is positive and
has at most `m` digits. -/
theorem operand_digits {d m x : Nat} (hd1 : 1 ≤ d) (hdm : d ≤ m)
    (hge : (digitRange d).1 ≤ x) (hle : x ≤ (digitRange d).2) :
    1 ≤ x ∧ countDigits x ≤ m :=
  ⟨le_trans (digitRange_fst_pos d) hge,
   le_trans (le_of_eq (countDigits_of_digitRange hd1 hge hle)) hdm⟩

/-- The pair produced by `defaultDraw` lies in the two digit ranges (the
subtraction swap may exchange them) and satisfies `b ≤ a` for subtraction. -/
theorem defaultDraw_spec {op : Operation} {aR bR : Nat × Nat}
    (haR : aR.1 ≤ aR.2) (hbR : bR.1 ≤ bR.2) {s a b s' : Nat}
    (h : defaultDraw op aR bR s = ((a, b), s')) :
    ((aR.1 ≤ a ∧ a ≤ aR.2) ∨ (bR.1 ≤ a ∧ a ≤ bR.2)) ∧
    ((aR.1 ≤ b ∧ b ≤ aR.2) ∨ (bR.1 ≤ b ∧ b ≤ bR.2)) ∧
    (op = .subtraction → b ≤ a) := by
  unfold defaultDraw at h
  have ha0ge := SeededRng.nextInt_fst_ge aR.1 aR.2 s
  have ha0le := SeededRng.nextInt_fst_le haR s
  rcases h1 : SeededRng.nextInt aR.1 aR.2 s with ⟨a0, s1⟩
  rw [h1] at h ha0ge ha0le
  dsimp only at h ha0ge ha0le
  have hb0ge := SeededRng.nextInt_fst_ge bR.1 bR.2 s1
  have hb0le := SeededRng.nextInt_fst_le hbR s1
  rcases h2 : SeededRng.nextInt bR.1 bR.2 s1 with ⟨b0, s2⟩
  rw [h2] at h hb0ge hb0le
  dsimp only at h hb0ge hb0le
  split at h
  · rename_i hswap
    simp only [Prod.mk.injEq] at h
    obtain ⟨⟨rfl, rfl⟩, rfl⟩ := h
    exact ⟨Or.inr ⟨hb0ge, hb0le⟩, Or.inl ⟨ha0ge, ha0le⟩, fun _ => by omega⟩
  · rename_i hnoswap
    simp only [Prod.mk.injEq] at h
    obtain ⟨⟨rfl, rfl⟩, rfl⟩ := h
    refine ⟨Or.inl ⟨ha0ge, ha0le⟩, Or.inr ⟨hb0ge, hb0le⟩, fun hop => ?_⟩
    by_contra hgt
    exact hnoswap ⟨hop, by omega⟩

/-- Master invariant of `generateOperands`: under a valid configuration
the result echoes the requested operation, its digit-count fields lie in
`[1, maxDigits]`, both operands are positive with at most `maxDigits`
decimal digits, subtraction satisfies `b ≤ a`, and multiplication keeps
the product within 7 digits. -/
theorem generateOperands_spec (rng : Nat) (op : Operation) (config : PracticeConfig)
    (n : Nat) {g : GeneratedOperands} {s' : Nat} (hv : validConfig config)
    (h : generateOperands rng op config n = (g, s')) :
    g.op = op ∧
    1 ≤ g.aDigits ∧ g.aDigits ≤ config.maxDigits ∧
    1 ≤ g.bDigits ∧ g.bDigits ≤ config.maxDigits ∧
    1 ≤ g.a ∧ countDigits g.a ≤ config.maxDigits ∧
    1 ≤ g.b ∧ countDigits g.b ≤ config.maxDigits ∧
    (op = .subtraction → g.b ≤ g.a) ∧
    (op = .multiplication → countDigits (g.a * g.b) ≤ 7) := by
  obtain ⟨hm1, hm6⟩ := hv
  have hdb := chooseDigitCounts_bounds rng op config ⟨hm1, hm6⟩
  unfold generateOperands at h
  rcases hc : chooseDigitCounts rng op config with ⟨⟨aD, bD⟩, s1⟩
  rw [hc] at h hdb
  dsimp only at h hdb
  obtain ⟨hd1, hd2, hd3, hd4⟩ := hdb
  have haR : (digitRange aD).1 ≤ (digitRange aD).2 := digitRange_fst_le_snd hd1
  have hbR : (digitRange bD).1 ≤ (digitRange bD).2 := digitRange_fst_le_snd hd3
  split at h
  · -- multiplication path
    rename_i hop
    rcases hmm : mulAttempts (digitRange aD) (digitRange bD) n s1 with ⟨o, s2⟩
    rw [hmm] at h
    match o, hmm with
    | some (a, b), hmm =>
      dsimp only at h
      simp only [Prod.mk.injEq] at h
      obtain ⟨rfl, rfl⟩ := h
      obtain ⟨hage, hale, hbge, hble, hprod⟩ := mulAttempts_some haR hbR hmm
      obtain ⟨hA1, hA2⟩ := operand_digits hd1 hd2 hage hale
      obtain ⟨hB1, hB2⟩ := operand_digits hd3 hd4 hbge hble
      exact ⟨rfl, hd1, hd2, hd3, hd4, hA1, hA2, hB1, hB2,
        fun hsub => absurd (hop.symm.trans hsub) (by decide),
        fun _ => hprod⟩
    | none, hmm =>
      dsimp only at h
      have hage := SeededRng.nextInt_fst_ge (digitRange aD).1 (digitRange aD).2 s2
      have hale := SeededRng.nextInt_fst_le haR s2
      rcases hA : SeededRng.nextInt (digitRange aD).1 (digitRange aD).2 s2 with ⟨a0, s3⟩
      rw [hA] at h hage hale
      dsimp only at h hage hale
      have hbge := SeededRng.nextInt_fst_ge (digitRange bD).1 (digitRange bD).2 s3
      have hble := SeededRng.nextInt_fst_le hbR s3
      rcases hB : SeededRng.nextInt (digitRange bD).1 (digitRange bD).2 s3 with ⟨b0, s4⟩
      rw [hB] at h hbge hble
      dsimp only at h hbge hble
      simp only [Prod.mk.injEq] at h
      obtain ⟨rfl, rfl⟩ := h
      obtain ⟨hA1, hA2⟩ := operand_digits hd1 hd2 hage hale
      obtain ⟨hB1, hB2⟩ := operand_digits hd3 hd4 hbge hble
      have hb0pos : 1 ≤ b0 := hB1
      refine ⟨rfl, hd1, hd2, hd3, hd4, hA1, hA2,
        halveLoop_pos a0 b0 hb0pos,
        le_trans (countDigits_mono (halveLoop_le a0 b0)) hB2,
        fun hsub => ?_, fun _ => ?_⟩
      · exact absurd (hop.symm.trans hsub) (by decide)
      · exact halveLoop_digits a0 b0 (by omega) hb0pos
  · -- addition / subtraction path
    rename_i hop
    split at h
    · -- easyResult produced a pair (only possible on the Easy retry path)
      rename_i x a b s2 hif
      simp only [Prod.mk.injEq] at h
      obtain ⟨rfl, rfl⟩ := h
      split at hif
      · obtain ⟨hA, hB, hsub⟩ := easyAttempts_some haR hbR hif
        have hA' : 1 ≤ a ∧ countDigits a ≤ config.maxDigits := by
          rcases hA with ⟨h1, h2⟩ | ⟨h1, h2⟩
          · exact operand_digits hd1 hd2 h1 h2
          · exact operand_digits hd3 hd4 h1 h2
        have hB' : 1 ≤ b ∧ countDigits b ≤ config.maxDigits := by
          rcases hB with ⟨h1, h2⟩ | ⟨h1, h2⟩
          · exact operand_digits hd1 hd2 h1 h2
          · exact operand_digits hd3 hd4 h1 h2
        exact ⟨rfl, hd1, hd2, hd3, hd4, hA'.1, hA'.2, hB'.1, hB'.2, hsub,
          fun hmul => absurd hmul hop⟩
      · exact absurd hif (by simp)
    · -- easyResult was none: the default generation block runs
      rename_i x s2 hif
      rcases hdd : defaultDraw op (digitRange aD) (digitRange bD) s2 with ⟨⟨a, b⟩, s4⟩
      rw [hdd] at h
      dsimp only at h
      simp only [Prod.mk.injEq] at h
      obtain ⟨rfl, rfl⟩ := h
      obtain ⟨hA, hB, hsub⟩ := defaultDraw_spec haR hbR hdd
      have hA' : 1 ≤ a ∧ countDigits a ≤ config.maxDigits := by
        rcases hA with ⟨h1, h2⟩ | ⟨h1, h2⟩
        · exact operand_digits hd1 hd2 h1 h2
        · exact operand_digits hd3 hd4 h1 h2
      have hB' : 1 ≤ b ∧ countDigits b ≤ config.maxDigits := by
        rcases hB with ⟨h1, h2⟩ | ⟨h1, h2⟩
        · exact operand_digits hd1 hd2 h1 h2
        · exact operand_digits hd3 hd4 h1 h2
      exact ⟨rfl, hd1, hd2, hd3, hd4, hA'.1, hA'.2, hB'.1, hB'.2, hsub,
        fun hmul => absurd hmul hop⟩

/-- The loop of `hasCarry` agrees with the carry-propagating reference
at carry 0 for every fuel: whenever the loop continues, the digit-sum
was below 10, so the propagated carry is 0 in both recursions. -/
theorem hasCarryGo_eq_specGo : ∀ fuel a b,
    hasCarryGo fuel a b 0 = hasCarrySpecGo fuel a b 0 := by
  intro fuel
  induction fuel with
  | zero => intro a b; rfl
  | succ fuel ih =>
    intro a b
    rw [hasCarryGo, hasCarrySpecGo]
    by_cases h0 : a = 0 ∧ b = 0
    · rw [if_pos h0, if_pos h0]
    · rw [if_neg h0, if_neg h0]
      dsimp only
      by_cases hds : 10 ≤ a % 10 + b % 10 + 0
      · rw [if_pos hds]
        have hds' : 10 ≤ a % 10 + b % 10 := by omega
        simp [hds']
      · simp only [if_neg hds]
        rw [ih (a / 10) (b / 10)]
        have hds' : ¬ 10 ≤ a % 10 + b % 10 := by omega
        simp [hds']

/-- C8: `hasCarry(a, b)` is true exactly when the digit-by-digit
addition of `a` and `b` from the ones place, with carry propagation,
produces a digit-sum ≥ 10 at some position — although the
implementation's `carry` variable is never set to 1 (the function
returns at the first such position), it agrees with the propagating
reference `hasCarrySpec` on all non-negative integers. -/
theorem hasCarry_eq_spec (a b : Nat) : hasCarry a b = hasCarrySpec a b := by
  unfold hasCarry hasCarrySpec
  exact hasCarryGo_eq_specGo (a + b) a b

/-- C6 counterexample: on the empty list `pick` does not fail with an
error — the source evaluates `arr[nextInt(0, -1)] = arr[0]` on the empty
array, which is JS `undefined` (embedded as `none`), returned normally
together with the advanced RNG state. -/
theorem pick_empty_no_error :
    SeededRng.pick ([] : List Nat) 0 = (none, 1831565813) := by rfl

/-- C6 (amended): `pick list` returns the element at index
`nextInt(0, length-1)`: `some` element of the list whenever the list is
non-empty (the index is always in bounds), and JS `undefined` (`none` —
a normal return, not a thrown error) when the list is empty. -/
theorem pick_spec (arr : List α) (s : Nat) :
    (arr = [] → (SeededRng.pick arr s).1 = none) ∧
    (arr ≠ [] → ∃ x, (SeededRng.pick arr s).1 = some x ∧ x ∈ arr) := by
  constructor
  · rintro rfl
    simp [SeededRng.pick]
  · intro hne
    have hlen : 0 < arr.length := List.length_pos.mpr hne
    have hle := SeededRng.nextInt_fst_le (Nat.zero_le (arr.length - 1)) s
    have hlt : (SeededRng.nextInt 0 (arr.length - 1) s).1 < arr.length := by omega
    unfold SeededRng.pick
    rcases hI : SeededRng.nextInt 0 (arr.length - 1) s with ⟨i, s1⟩
    rw [hI] at hlt
    dsimp only at hlt ⊢
    refine ⟨arr.get ⟨i, hlt⟩, ?_, List.get_mem _ _ _⟩
    exact List.get?_eq_get hlt

/-- C6 witness: `pick_spec` instantiated on the empty list and on
`[10, 20, 30]`. -/
theorem pick_spec_witness :
    (SeededRng.pick ([] : List Nat) 5).1 = none ∧
    ∃ x, (SeededRng.pick [10, 20, 30] 5).1 = some x ∧ x ∈ [10, 20, 30] :=
  ⟨(pick_spec ([] : List Nat) 5).1 rfl, (pick_spec [10, 20, 30] 5).2 (by decide)⟩

/-- C7 counterexample: called with the invalid bound `maxDigits = 0`
(difficulty Medium, RNG state 0), the Rules Engine does not fail fast
with a validation error — it silently returns a normal 1-digit result. -/
theorem rules_engine_accepts_invalid_maxdigits :
    (generateOperands 0 .addition ⟨⟨true, false, false⟩, 0, .Medium⟩ 20).1 =
      { op := .addition, a := 3, b := 2, aDigits := 1, bDigits := 1 } := by rfl

/-- C7 (amended): the Rules Engine performs no validation and cannot
fail: the invalid bound `maxDigits = 0` is silently accepted and behaves
exactly as `maxDigits = 1` does (each `nextInt(1, 0)` draw returns 1),
for every RNG state, attempt bound, operation, difficulty and
enabled-operations set. -/
theorem generateOperands_ignores_invalid_maxdigits (s n : Nat) (op : Operation)
    (ops : OperationsConfig) (d : Difficulty) :
    generateOperands s op ⟨ops, 0, d⟩ n = generateOperands s op ⟨ops, 1, d⟩ n := by
  have hc : chooseDigitCounts s op ⟨ops, 0, d⟩ = chooseDigitCounts s op ⟨ops, 1, d⟩ := by
    unfold chooseDigitCounts
    cases d <;> cases op <;> rfl
  unfold generateOperands
  rw [hc]

/-- `generateProblem` unfolded: the RNG chain is `forProblem` →
`selectOperation` → `generateOperands`, and `createdAt` is the only
field that depends on `now`. -/
theorem generateProblem_eq (seed index : Nat) (config : PracticeConfig) (now : Nat) :
    generateProblem seed index config now =
      { id := "p-" ++ toString seed ++ "-" ++ toString index
        seed := seed
        index := index
        op := (generateOperands (selectOperation (SeededRng.forProblem seed index) config).2
                (selectOperation (SeededRng.forProblem seed index) config).1 config 20).1.op
        a := (generateOperands (selectOperation (SeededRng.forProblem seed index) config).2
                (selectOperation (SeededRng.forProblem seed index) config).1 config 20).1.a
        b := (generateOperands (selectOperation (SeededRng.forProblem seed index) config).2
                (selectOperation (SeededRng.forProblem seed index) config).1 config 20).1.b
        aDigits := (generateOperands (selectOperation (SeededRng.forProblem seed index) config).2
                (selectOperation (SeededRng.forProblem seed index) config).1 config 20).1.aDigits
        bDigits := (generateOperands (selectOperation (SeededRng.forProblem seed index) config).2
                (selectOperation (SeededRng.forProblem seed index) config).1 config 20).1.bDigits
        createdAt := now } := rfl

/-- C1: two calls of `generateProblem` with identical seed, index and a
valid config return Problems agreeing on `id`, `op`, `a`, `b`,
`aDigits` and `bDigits`; only `createdAt` (the wall-clock input `now`)
may differ. -/
theorem generateProblem_deterministic (seed index : Nat) (config : PracticeConfig)
    (hv : validConfig config) (now1 now2 : Nat) :
    (generateProblem seed index config now1).id = (generateProblem seed index config now2).id ∧
    (generateProblem seed index config now1).op = (generateProblem seed index config now2).op ∧
    (generateProblem seed index config now1).a = (generateProblem seed index config now2).a ∧
    (generateProblem seed index config now1).b = (generateProblem seed index config now2).b ∧
    (generateProblem seed index config now1).aDigits =
      (generateProblem seed index config now2).aDigits ∧
    (generateProblem seed index config now1).bDigits =
      (generateProblem seed index config now2).bDigits :=
  ⟨rfl, rfl, rfl, rfl, rfl, rfl⟩

/-- C1 witness: `generateProblem_deterministic` at seed 1, index 0, a
valid all-operations Easy config, and the distinct timestamps 0 and 99. -/
theorem generateProblem_deterministic_witness :
    validConfig ⟨⟨true, true, true⟩, 3, .Easy⟩ ∧
    ((generateProblem 1 0 ⟨⟨true, true, true⟩, 3, .Easy⟩ 0).id =
       (generateProblem 1 0 ⟨⟨true, true, true⟩, 3, .Easy⟩ 99).id ∧
     (generateProblem 1 0 ⟨⟨true, true, true⟩, 3, .Easy⟩ 0).op =
       (generateProblem 1 0 ⟨⟨true, true, true⟩, 3, .Easy⟩ 99).op ∧
     (generateProblem 1 0 ⟨⟨true, true, true⟩, 3, .Easy⟩ 0).a =
       (generateProblem 1 0 ⟨⟨true, true, true⟩, 3, .Easy⟩ 99).a ∧
     (generateProblem 1 0 ⟨⟨true, true, true⟩, 3, .Easy⟩ 0).b =
       (generateProblem 1 0 ⟨⟨true, true, true⟩, 3, .Easy⟩ 99).b ∧
     (generateProblem 1 0 ⟨⟨true, true, true⟩, 3, .Easy⟩ 0).aDigits =
       (generateProblem 1 0 ⟨⟨true, true, true⟩, 3, .Easy⟩ 99).aDigits ∧
     (generateProblem 1 0 ⟨⟨true, true, true⟩, 3, .Easy⟩ 0).bDigits =
       (generateProblem 1 0 ⟨⟨true, true, true⟩, 3, .Easy⟩ 99).bDigits) :=
  ⟨by decide, generateProblem_deterministic 1 0 ⟨⟨true, true, true⟩, 3, .Easy⟩ (by decide) 0 99⟩

/-- C2: every generated problem whose operation is subtraction (any
seed, index, valid config, any difficulty) has `a ≥ b`, and the
subtraction answer is non-negative. -/
theorem generated_subtraction_nonneg (seed index now : Nat) (config : PracticeConfig)
    (hv : validConfig config)
    (hop : (generateProblem seed index config now).op = .subtraction) :
    (generateProblem seed index config now).b ≤ (generateProblem seed index config now).a ∧
    0 ≤ computeAnswer (generateProblem seed index config now).a
        (generateProblem seed index config now).b .subtraction := by
  rcases hg : generateOperands (selectOperation (SeededRng.forProblem seed index) config).2
      (selectOperation (SeededRng.forProblem seed index) config).1 config 20 with ⟨g, s2⟩
  have heq := generateProblem_eq seed index config now
  rw [heq, hg] at hop ⊢
  dsimp only at hop ⊢
  obtain ⟨hgop, _, _, _, _, _, _, _, _, hsub, _⟩ :=
    generateOperands_spec _ _ _ _ hv hg
  have hba : g.b ≤ g.a := hsub (hgop.symm.trans hop)
  refine ⟨hba, ?_⟩
  simp only [computeAnswer]
  omega

/-- C2 witness: a subtraction-only Hard config at seed 1, index 0. -/
theorem generated_subtraction_nonneg_witness :
    validConfig ⟨⟨false, true, false⟩, 4, .Hard⟩ ∧
    (generateProblem 1 0 ⟨⟨false, true, false⟩, 4, .Hard⟩ 0).op = .subtraction ∧
    ((generateProblem 1 0 ⟨⟨false, true, false⟩, 4, .Hard⟩ 0).b ≤
       (generateProblem 1 0 ⟨⟨false, true, false⟩, 4, .Hard⟩ 0).a ∧
     0 ≤ computeAnswer (generateProblem 1 0 ⟨⟨false, true, false⟩, 4, .Hard⟩ 0).a
         (generateProblem 1 0 ⟨⟨false, true, false⟩, 4, .Hard⟩ 0).b .subtraction) :=
  ⟨by decide, by decide,
   generated_subtraction_nonneg 1 0 0 ⟨⟨false, true, false⟩, 4, .Hard⟩ (by decide) (by decide)⟩

/-- C3: every generated problem whose operation is multiplication under
a valid config has a product of at most 7 decimal digits — including
when the 20-attempt loop is exhausted and the halving fallback runs. -/
theorem generated_multiplication_digit_cap (seed index now : Nat) (config : PracticeConfig)
    (hv : validConfig config)
    (hop : (generateProblem seed index config now).op = .multiplication) :
    countDigits ((generateProblem seed index config now).a *
      (generateProblem seed index config now).b) ≤ 7 := by
  rcases hg : generateOperands (selectOperation (SeededRng.forProblem seed index) config).2
      (selectOperation (SeededRng.forProblem seed index) config).1 config 20 with ⟨g, s2⟩
  have heq := generateProblem_eq seed index config now
  rw [heq, hg] at hop ⊢
  dsimp only at hop ⊢
  obtain ⟨hgop, _, _, _, _, _, _, _, _, _, hmul⟩ :=
    generateOperands_spec _ _ _ _ hv hg
  exact hmul (hgop.symm.trans hop)

/-- C3 witness: a multiplication-only Hard config at seed 1, index 0. -/
theorem generated_multiplication_digit_cap_witness :
    validConfig ⟨⟨false, false, true⟩, 6, .Hard⟩ ∧
    (generateProblem 1 0 ⟨⟨false, false, true⟩, 6, .Hard⟩ 0).op = .multiplication ∧
    countDigits ((generateProblem 1 0 ⟨⟨false, false, true⟩, 6, .Hard⟩ 0).a *
      (generateProblem 1 0 ⟨⟨false, false, true⟩, 6, .Hard⟩ 0).b) ≤ 7 :=
  ⟨by decide, by decide,
   generated_multiplication_digit_cap 1 0 0 ⟨⟨false, false, true⟩, 6, .Hard⟩
     (by decide) (by decide)⟩

/-- C4: for every generated problem under a valid config, the digit-count
fields lie in `[1, maxDigits]` and the actual decimal digit counts of
both operands are at most `maxDigits` — including after the subtraction
swap and after the multiplication halving fallback. -/
theorem generated_digit_bounds (seed index now : Nat) (config : PracticeConfig)
    (hv : validConfig config) :
    1 ≤ (generateProblem seed index config now).aDigits ∧
    (generateProblem seed index config now).aDigits ≤ config.maxDigits ∧
    1 ≤ (generateProblem seed index config now).bDigits ∧
    (generateProblem seed index config now).bDigits ≤ config.maxDigits ∧
    countDigits (generateProblem seed index config now).a ≤ config.maxDigits ∧
    countDigits (generateProblem seed index config now).b ≤ config.maxDigits := by
  rcases hg : generateOperands (selectOperation (SeededRng.forProblem seed index) config).2
      (selectOperation (SeededRng.forProblem seed index) config).1 config 20 with ⟨g, s2⟩
  have heq := generateProblem_eq seed index config now
  rw [heq, hg]
  dsimp only
  obtain ⟨_, hd1, hd2, hd3, hd4, _, hda, _, hdb, _, _⟩ :=
    generateOperands_spec _ _ _ _ hv hg
  exact ⟨hd1, hd2, hd3, hd4, hda, hdb⟩

/-- C4 witness: the all-operations Easy config with maxDigits 3 at
seed 1, index 0. -/
theorem generated_digit_bounds_witness :
    validConfig ⟨⟨true, true, true⟩, 3, .Easy⟩ ∧
    (1 ≤ (generateProblem 1 0 ⟨⟨true, true, true⟩, 3, .Easy⟩ 0).aDigits ∧
     (generateProblem 1 0 ⟨⟨true, true, true⟩, 3, .Easy⟩ 0).aDigits ≤
       (⟨⟨true, true, true⟩, 3, .Easy⟩ : PracticeConfig).maxDigits ∧
     1 ≤ (generateProblem 1 0 ⟨⟨true, true, true⟩, 3, .Easy⟩ 0).bDigits ∧
     (generateProblem 1 0 ⟨⟨true, true, true⟩, 3, .Easy⟩ 0).bDigits ≤
       (⟨⟨true, true, true⟩, 3, .Easy⟩ : PracticeConfig).maxDigits ∧
     countDigits (generateProblem 1 0 ⟨⟨true, true, true⟩, 3, .Easy⟩ 0).a ≤
       (⟨⟨true, true, true⟩, 3, .Easy⟩ : PracticeConfig).maxDigits ∧
     countDigits (generateProblem 1 0 ⟨⟨true, true, true⟩, 3, .Easy⟩ 0).b ≤
       (⟨⟨true, true, true⟩, 3, .Easy⟩ : PracticeConfig).maxDigits) :=
  ⟨by decide, generated_digit_bounds 1 0 0 ⟨⟨true, true, true⟩, 3, .Easy⟩ (by decide)⟩

/-- C5 (code evidence): at seed 88, index 0 with an addition-only
Easy/maxDigits-3 config, every one of the 20 Easy attempts draws a
carrying pair — the 20th (final) attempt draws (856, 701) — yet
`generateOperands` does not return that pair: control falls through to
the default generation block, which draws a fresh pair (962, 313) with
two further RNG calls and returns it.  This contradicts the source
comment "Fallback: return last generated pair even if it has
carry/borrow" and the claim. -/
theorem easyFallback_draws_fresh_pair :
    SeededRng.forProblem 88 0 = 1662112984 ∧
    selectOperation 1662112984 ⟨⟨true, false, false⟩, 3, .Easy⟩ =
      (.addition, 3493678797) ∧
    chooseDigitCounts 3493678797 .addition ⟨⟨true, false, false⟩, 3, .Easy⟩ =
      ((3, 3), 1030277314) ∧
    easyAttempts .addition (digitRange 3) (digitRange 3) 20 1030277314 =
      (none, 1278465802) ∧
    easyAttempts .addition (digitRange 3) (digitRange 3) 19 1030277314 =
      (none, 1910301472) ∧
    (SeededRng.nextInt 100 999 1910301472).1 = 856 ∧
    (SeededRng.nextInt 100 999 (SeededRng.nextInt 100 999 1910301472).2).1 = 701 ∧
    hasCarry 856 701 = true ∧
    defaultDraw .addition (digitRange 3) (digitRange 3) 1278465802 =
      ((962, 313), 646630132) ∧
    (generateProblem 88 0 ⟨⟨true, false, false⟩, 3, .Easy⟩ 0).a = 962 ∧
    (generateProblem 88 0 ⟨⟨true, false, false⟩, 3, .Easy⟩ 0).b = 313 ∧
    ((962 : Nat), (313 : Nat)) ≠ ((856 : Nat), (701 : Nat)) := by
  refine ⟨rfl, rfl, rfl, rfl, rfl, rfl, rfl, rfl, rfl, rfl, rfl, by decide⟩

/-- While a pen stroke is active (pen-active flag set, pointer captured),
every touch-type event with a different pointer id is a complete no-op:
pointer-down is dropped by the palm-rejection guard, pointer-move and
pointer-up by the pointer-id guard. -/
theorem touch_event_ignored (st : ControllerState) (e : PEvent) (pid : Nat)
    (hpen : st.isPenActive = true) (hpid : st.activePointerId = some pid)
    (hty : e.pointerType = .touch) (hid : e.pointerId ≠ pid) :
    step st e = st := by
  have hne : ¬ st.activePointerId = some e.pointerId := by
    rw [hpid]
    intro hcon
    exact hid (Option.some.inj hcon).symm
  unfold step
  cases hk : e.kind
  · dsimp only
    unfold onPointerDown
    rw [if_pos ⟨hpen, hty⟩]
  · dsimp only
    unfold onPointerMove
    cases hs : st.activeStroke with
    | none => rfl
    | some stroke =>
      dsimp only
      rw [if_pos hne]
  · dsimp only
    unfold onPointerUp
    cases hs : st.activeStroke with
    | none => rfl
    | some stroke =>
      dsimp only
      rw [if_pos hne]

/-- A pen pointer-down on an idle controller creates a one-point stroke
with the current tool settings, captures the pointer and sets the
pen-active flag. -/
theorem pen_down_from_idle (st : ControllerState) (pid : Nat) (p : StrokePoint)
    (hidle : st.activeStroke = none) :
    onPointerDown st ⟨.down, .pen, pid, p⟩ =
      { st with
        isPenActive := true
        activePointerId := some pid
        activeStroke := some { id := st.strokeCounter + 1, color := st.toolColor,
                               size := st.toolSize, mode := st.toolMode, points := [p] }
        lastPointIndex := 0
        strokeCounter := st.strokeCounter + 1 } := by
  unfold onPointerDown
  rw [if_neg (by simp), if_neg (by simp [hidle])]
  rfl

/-- A run of touch-type events with foreign pointer ids leaves a
pen-active controller state unchanged. -/
theorem run_touch_ignored (mid : List PEvent) : ∀ (st : ControllerState) (pid : Nat),
    st.isPenActive = true → st.activePointerId = some pid →
    (∀ e ∈ mid, e.pointerType = .touch ∧ e.pointerId ≠ pid) →
    run st mid = st := by
  induction mid with
  | nil => intro st pid _ _ _; rfl
  | cons e es ih =>
    intro st pid hpen hpid hmid
    rw [run]
    obtain ⟨hty, hid⟩ := hmid e (List.mem_cons_self e es)
    rw [touch_event_ignored st e pid hpen hpid hty hid]
    exact ih st pid hpen hpid (fun e' he' => hmid e' (List.mem_cons_of_mem e he'))

/-- C9: starting from an idle controller, a pen pointer-down followed —
before the pen's pointer-up — by any touch-type events with pointer ids
different from the pen's (in particular the claim's touch pointer-down)
leaves the state exactly as it was after the pen-down: no second stroke
is created and no point is appended; the pen's pointer-up then hands
exactly the pen stroke to the completion callback. -/
theorem palm_rejection (st0 : ControllerState) (penId : Nat) (p1 p3 : StrokePoint)
    (mid : List PEvent)
    (hidle : st0.activeStroke = none) (hpen : st0.isPenActive = false)
    (hmid : ∀ e ∈ mid, e.pointerType = .touch ∧ e.pointerId ≠ penId) :
    run (onPointerDown st0 ⟨.down, .pen, penId, p1⟩) mid =
      onPointerDown st0 ⟨.down, .pen, penId, p1⟩ ∧
    ∃ stroke, (onPointerDown st0 ⟨.down, .pen, penId, p1⟩).activeStroke = some stroke ∧
      (onPointerUp (run (onPointerDown st0 ⟨.down, .pen, penId, p1⟩) mid)
          ⟨.up, .pen, penId, p3⟩).completed = st0.completed ++ [stroke] ∧
      (onPointerUp (run (onPointerDown st0 ⟨.down, .pen, penId, p1⟩) mid)
          ⟨.up, .pen, penId, p3⟩).activeStroke = none := by
  have hd := pen_down_from_idle st0 penId p1 hidle
  have hrun : run (onPointerDown st0 ⟨.down, .pen, penId, p1⟩) mid =
      onPointerDown st0 ⟨.down, .pen, penId, p1⟩ := by
    apply run_touch_ignored mid _ penId ?_ ?_ hmid
    · rw [hd]
    · rw [hd]
  refine ⟨hrun,
    { id := st0.strokeCounter + 1, color := st0.toolColor, size := st0.toolSize,
      mode := st0.toolMode, points := [p1] }, ?_, ?_, ?_⟩
  · rw [hd]
  · rw [hrun, hd]
    unfold onPointerUp
    dsimp only
    rw [if_neg (fun hne => hne rfl), if_pos rfl]
  · rw [hrun, hd]
    unfold onPointerUp
    dsimp only
    rw [if_neg (fun hne => hne rfl), if_pos rfl]

/-- C9 witness: `palm_rejection` on a concrete idle controller, with the
claim's touch pointer-down (id 2) arriving between the pen-down and the
pen-up (id 1). -/
theorem palm_rejection_witness :
    run (onPointerDown ⟨none, 0, false, none, 0, "black", 4, .pen, []⟩
        ⟨.down, .pen, 1, ⟨0, 0, 0, none⟩⟩)
      [⟨.down, .touch, 2, ⟨5, 5, 5, none⟩⟩] =
      onPointerDown ⟨none, 0, false, none, 0, "black", 4, .pen, []⟩
        ⟨.down, .pen, 1, ⟨0, 0, 0, none⟩⟩ ∧
    ∃ stroke,
      (onPointerDown ⟨none, 0, false, none, 0, "black", 4, .pen, []⟩
          ⟨.down, .pen, 1, ⟨0, 0, 0, none⟩⟩).activeStroke = some stroke ∧
      (onPointerUp (run (onPointerDown ⟨none, 0, false, none, 0, "black", 4, .pen, []⟩
            ⟨.down, .pen, 1, ⟨0, 0, 0, none⟩⟩)
          [⟨.down, .touch, 2, ⟨5, 5, 5, none⟩⟩]) ⟨.up, .pen, 1, ⟨1, 1, 1, none⟩⟩).completed =
        (⟨none, 0, false, none, 0, "black", 4, .pen, []⟩ : ControllerState).completed ++
          [stroke] ∧
      (onPointerUp (run (onPointerDown ⟨none, 0, false, none, 0, "black", 4, .pen, []⟩
            ⟨.down, .pen, 1, ⟨0, 0, 0, none⟩⟩)
          [⟨.down, .touch, 2, ⟨5, 5, 5, none⟩⟩]) ⟨.up, .pen, 1, ⟨1, 1, 1, none⟩⟩).activeStroke =
        none :=
  palm_rejection ⟨none, 0, false, none, 0, "black", 4, .pen, []⟩ 1 ⟨0, 0, 0, none⟩
    ⟨1, 1, 1, none⟩ [⟨.down, .touch, 2, ⟨5, 5, 5, none⟩⟩] (by decide) (by decide) (by decide)

/-- The stroke counter never decreases across an event. -/
theorem step_counter_mono (st : ControllerState) (e : PEvent) :
    st.strokeCounter ≤ (step st e).strokeCounter := by
  unfold step
  cases hk : e.kind
  · dsimp only
    unfold onPointerDown
    split
    · exact le_refl _
    · split
      · exact le_refl _
      · dsimp only [createStroke]
        exact Nat.le_succ _
  · dsimp only
    unfold onPointerMove
    cases hs : st.activeStroke with
    | none => exact le_refl _
    | some stroke =>
      dsimp only
      split
      · exact le_refl _
      · split
        · exact le_refl _
        · exact le_refl _
  · dsimp only
    unfold onPointerUp
    cases hs : st.activeStroke with
    | none => exact le_refl _
    | some stroke =>
      dsimp only
      split
      · exact le_refl _
      · split <;> exact le_refl _

/-- Every stroke in the completed list after one event was already
completed, or is the event's active stroke (matched by id). -/
theorem step_completed_subset (st : ControllerState) (e : PEvent) :
    ∀ t ∈ (step st e).completed,
      t ∈ st.completed ∨ (∃ u, st.activeStroke = some u ∧ t.id = u.id) := by
  intro t ht
  unfold step at ht
  cases hk : e.kind <;> rw [hk] at ht <;> dsimp only at ht
  · unfold onPointerDown at ht
    split at ht
    · exact Or.inl ht
    · split at ht
      · exact Or.inl ht
      · dsimp only [createStroke] at ht
        split at ht
        · exact Or.inl ht
        · exact Or.inl ht
  · unfold onPointerMove at ht
    cases hs : st.activeStroke with
    | none =>
      rw [hs] at ht
      dsimp only at ht
      exact Or.inl ht
    | some stroke =>
      rw [hs] at ht
      dsimp only at ht
      split at ht
      · exact Or.inl ht
      · split at ht
        · exact Or.inl ht
        · exact Or.inl ht
  · unfold onPointerUp at ht
    cases hs : st.activeStroke with
    | none =>
      rw [hs] at ht
      dsimp only at ht
      exact Or.inl ht
    | some stroke =>
      rw [hs] at ht
      dsimp only at ht
      split at ht
      · exact Or.inl ht
      · split at ht <;> dsimp only at ht <;>
          rcases List.mem_append.mp ht with h | h
        · exact Or.inl h
        · rcases List.mem_singleton.mp h with rfl
          exact Or.inr ⟨t, rfl, rfl⟩
        · exact Or.inl h
        · rcases List.mem_singleton.mp h with rfl
          exact Or.inr ⟨t, rfl, rfl⟩

/-- The stroke active after one event either keeps the id of the stroke
active before it, or is freshly created with an id above the counter. -/
theorem step_active_ids (st : ControllerState) (e : PEvent) (v : Stroke)
    (h : (step st e).activeStroke = some v) :
    (∃ u, st.activeStroke = some u ∧ v.id = u.id) ∨ st.strokeCounter < v.id := by
  unfold step at h
  cases hk : e.kind <;> rw [hk] at h <;> dsimp only at h
  · unfold onPointerDown at h
    split at h
    · exact Or.inl ⟨v, h, rfl⟩
    · split at h
      · exact Or.inl ⟨v, h, rfl⟩
      · dsimp only [createStroke, addPoint] at h
        obtain rfl := Option.some.inj h.symm
        exact Or.inr (Nat.lt_succ_self _)
  · unfold onPointerMove at h
    cases hs : st.activeStroke with
    | none =>
      rw [hs] at h
      dsimp only at h
      rw [hs] at h
      simp at h
    | some stroke =>
      rw [hs] at h
      dsimp only at h
      split at h
      · rw [hs] at h
        obtain rfl := Option.some.inj h
        exact Or.inl ⟨stroke, rfl, rfl⟩
      · split at h
        · rw [hs] at h
          obtain rfl := Option.some.inj h
          exact Or.inl ⟨stroke, rfl, rfl⟩
        · dsimp only [addPoint] at h
          obtain rfl := Option.some.inj h.symm
          exact Or.inl ⟨stroke, rfl, rfl⟩
  · unfold onPointerUp at h
    cases hs : st.activeStroke with
    | none =>
      rw [hs] at h
      dsimp only at h
      rw [hs] at h
      simp at h
    | some stroke =>
      rw [hs] at h
      dsimp only at h
      split at h
      · rw [hs] at h
        obtain rfl := Option.some.inj h
        exact Or.inl ⟨stroke, rfl, rfl⟩
      · split at h <;> simp at h

/-- Every stroke completed during a run of events was completed before
the run, or carries the id of the stroke active at the start, or carries
a fresh id above the starting counter. -/
theorem run_completed_ids (evs : List PEvent) : ∀ (st : ControllerState),
    ∀ t ∈ (run st evs).completed,
      t ∈ st.completed ∨ (∃ u, st.activeStroke = some u ∧ t.id = u.id) ∨
        st.strokeCounter < t.id := by
  induction evs with
  | nil => intro st t ht; exact Or.inl ht
  | cons e es ih =>
    intro st t ht
    rw [run] at ht
    rcases ih (step st e) t ht with hin | ⟨u, hu, huid⟩ | hgt
    · rcases step_completed_subset st e t hin with h | ⟨u, hu, huid⟩
      · exact Or.inl h
      · exact Or.inr (Or.inl ⟨u, hu, huid⟩)
    · rcases step_active_ids st e u hu with ⟨w, hw, hwid⟩ | hgt
      · exact Or.inr (Or.inl ⟨w, hw, by omega⟩)
      · exact Or.inr (Or.inr (by omega))
    · have := step_counter_mono st e
      exact Or.inr (Or.inr (by omega))

/-- C10: a pointer-down carrying the active stroke's own pointer id (a
repeated down with no intervening up/cancel/leave; its type not
suppressed by palm rejection, as holds for a genuine repeat from the
same device) is not ignored: a newly created one-point stroke replaces
the active stroke, the event completes nothing, and the replaced stroke
is never handed to `onStrokeComplete` by any sequence of later events —
its points are silently discarded. -/
theorem repeated_pointerdown_replaces_stroke
    (st : ControllerState) (stroke : Stroke) (pid : Nat) (ty : PointerType)
    (p : StrokePoint)
    (hactive : st.activeStroke = some stroke)
    (hpid : st.activePointerId = some pid)
    (hnopalm : ¬ (st.isPenActive = true ∧ ty = .touch))
    (hid : stroke.id ≤ st.strokeCounter)
    (hfresh : ∀ t ∈ st.completed, t.id ≠ stroke.id) :
    (onPointerDown st ⟨.down, ty, pid, p⟩).activeStroke =
      some { id := st.strokeCounter + 1, color := st.toolColor, size := st.toolSize,
             mode := st.toolMode, points := [p] } ∧
    (onPointerDown st ⟨.down, ty, pid, p⟩).completed = st.completed ∧
    ∀ evs, ∀ t ∈ (run (onPointerDown st ⟨.down, ty, pid, p⟩) evs).completed,
      t.id ≠ stroke.id := by
  have hguard : ¬ (st.activeStroke ≠ none ∧
      st.activePointerId ≠ some (⟨.down, ty, pid, p⟩ : PEvent).pointerId) := by
    intro hcon
    exact hcon.2 (by rw [hpid])
  have h1 : (onPointerDown st ⟨.down, ty, pid, p⟩).activeStroke =
      some { id := st.strokeCounter + 1, color := st.toolColor, size := st.toolSize,
             mode := st.toolMode, points := [p] } := by
    unfold onPointerDown
    rw [if_neg hnopalm, if_neg hguard]
    dsimp only [createStroke, addPoint]
    rw [List.nil_append]
  have h2 : (onPointerDown st ⟨.down, ty, pid, p⟩).completed = st.completed := by
    unfold onPointerDown
    rw [if_neg hnopalm, if_neg hguard]
    dsimp only [createStroke]
    split <;> rfl
  have h3 : (onPointerDown st ⟨.down, ty, pid, p⟩).strokeCounter =
      st.strokeCounter + 1 := by
    unfold onPointerDown
    rw [if_neg hnopalm, if_neg hguard]
    dsimp only [createStroke]
  refine ⟨h1, h2, ?_⟩
  intro evs t ht
  rcases run_completed_ids evs (onPointerDown st ⟨.down, ty, pid, p⟩) t ht with
    hin | ⟨u, hu, huid⟩ | hgt
  · rw [h2] at hin
    exact hfresh t hin
  · rw [h1] at hu
    obtain rfl := Option.some.inj hu
    intro hcontra
    rw [hcontra] at huid
    dsimp only at huid
    omega
  · rw [h3] at hgt
    intro hcontra
    omega

/-- C10 witness: `repeated_pointerdown_replaces_stroke` on a concrete
controller with an active pen stroke of id 1 (counter 1) and a repeated
pen pointer-down with the same pointer id 7. -/
theorem repeated_pointerdown_replaces_stroke_witness :
    (onPointerDown
        ⟨some ⟨1, "black", 4, .pen, [⟨1, 2, 3, none⟩]⟩, 0, true, some 7, 1,
          "black", 4, .pen, []⟩
        ⟨.down, .pen, 7, ⟨4, 5, 6, none⟩⟩).activeStroke =
      some { id := 2, color := "black", size := 4, mode := .pen,
             points := [⟨4, 5, 6, none⟩] } ∧
    (onPointerDown
        ⟨some ⟨1, "black", 4, .pen, [⟨1, 2, 3, none⟩]⟩, 0, true, some 7, 1,
          "black", 4, .pen, []⟩
        ⟨.down, .pen, 7, ⟨4, 5, 6, none⟩⟩).completed = [] ∧
    ∀ evs, ∀ t ∈ (run (onPointerDown
        ⟨some ⟨1, "black", 4, .pen, [⟨1, 2, 3, none⟩]⟩, 0, true, some 7, 1,
          "black", 4, .pen, []⟩
        ⟨.down, .pen, 7, ⟨4, 5, 6, none⟩⟩) evs).completed,
      t.id ≠ (⟨1, "black", 4, .pen, [⟨1, 2, 3, none⟩]⟩ : Stroke).id :=
  repeated_pointerdown_replaces_stroke
    ⟨some ⟨1, "black", 4, .pen, [⟨1, 2, 3, none⟩]⟩, 0, true, some 7, 1,
      "black", 4, .pen, []⟩
    ⟨1, "black", 4, .pen, [⟨1, 2, 3, none⟩]⟩ 7 .pen ⟨4, 5, 6, none⟩
    (by decide) (by decide) (by decide) (by decide) (by decide)
